import Mathlib

/-!
Verification of the whatsapp-web-poc-bot core pipeline.

Text is modelled as `List Char` (named `Str` below).  Python string
primitives used by the sources (`startswith`, slicing, `strip`, `split`,
`lower`, substring membership) are embedded as executable functions on
`Str`; fallible browser primitives are embedded as `Except Unit` values.
-/

namespace WABot

abbrev Str := List Char

/-- Whitespace predicate used by Python `str.strip` / `str.split`
(ASCII portion; the sources only exercise ASCII whitespace). -/
def pyIsSpace (c : Char) : Bool :=
  c = ' ' || c = '\t' || c = '\n' || c = '\r' || c = '\x0b' || c = '\x0c'

/-- Python `text.startswith(p)` (first argument is the text, second the candidate). -/
def pyStartswith : Str → Str → Bool
  | _, [] => true
  | [], _ :: _ => false
  | c :: cs, p :: ps => c = p && pyStartswith cs ps

/-- Leading-whitespace removal (half of Python `str.strip`). -/
def lstrip (s : Str) : Str := s.dropWhile pyIsSpace

/-- Trailing-whitespace removal (half of Python `str.strip`). -/
def rstrip (s : Str) : Str := (s.reverse.dropWhile pyIsSpace).reverse

/-- Python `str.strip()`. -/
def strip (s : Str) : Str := rstrip (lstrip s)

/-- Worker for `pySplit`; `acc` holds the current token reversed. -/
def pySplitGo : Str → Str → List Str
  | [], acc => if acc = [] then [] else [acc.reverse]
  | c :: cs, acc =>
    if pyIsSpace c then
      if acc = [] then pySplitGo cs [] else acc.reverse :: pySplitGo cs []
    else pySplitGo cs (c :: acc)

/-- Python `str.split()` with no separator: split on whitespace runs,
never producing empty tokens. -/
def pySplit (s : Str) : List Str := pySplitGo s []

/-- Python `str.lower` on a single character (ASCII mapping, the portion
exercised by the sources): code points 65-90 shift to 97-122. -/
def pyLowerChar (c : Char) : Char :=
  if 65 ≤ c.toNat ∧ c.toNat ≤ 90 then Char.ofNat (c.toNat + 32) else c

/-- Python `str.lower()`. -/
def pyLower (s : Str) : Str := s.map pyLowerChar

/-- Python `needle in hay` substring membership. -/
def containsSub : Str → Str → Bool
  | [], needle => needle = []
  | c :: rest, needle => pyStartswith (c :: rest) needle || containsSub rest needle

/-- `filters.ParsedCommand`. -/
structure ParsedCommand where
  name : Str
  args : List Str
deriving DecidableEq

/-- `filters.ParsedMessage`: the source dataclass carries an `is_command`
flag plus two optional fields, but every construction site makes exactly a
command shape or a query shape, so it is embedded as a tagged union. -/
inductive ParsedMessage
  | command (cmd : ParsedCommand)
  | query (q : Str)
deriving DecidableEq

/-- Payload stage of `MessageFilter.parse` (`filters.py`, after the
prefix has been stripped and the remainder trimmed).  The `[]` branch of
the `match` is unreachable: a non-empty trimmed payload always yields at
least one token. -/
def parsePayload (payload : Str) : Option ParsedMessage :=
  if payload = [] then none
  else
    match pySplit payload with
    | [] => none
    | tok :: rest =>
      if tok.head? = some '-' then
        some (.command ⟨pyLower (tok.drop 1), rest⟩)
      else
        some (.query payload)

/-- `MessageFilter.parse` (`filters.py` lines 31-56). -/
def parse (pfx : Str) (text : Str) : Option ParsedMessage :=
  if pyStartswith text pfx then
    parsePayload (strip (text.drop pfx.length))
  else none

/-- Payload stage of the spec's reference parser definition
(spec section 4.6), written from the spec's bullet list. -/
def parseSpecPayload (payload : Str) : Option ParsedMessage :=
  if payload.isEmpty then none
  else
    match pySplit payload with
    | [] => none
    | tok :: rest =>
      match tok with
      | '-' :: tname => some (.command ⟨pyLower tname, rest⟩)
      | _ => some (.query payload)

/-- Modelled from the spec's reference definition of the parser
(spec section 4.6), written from the spec's bullet list, to be compared
with `parse` above. -/
def parseSpec (pfx : Str) (text : Str) : Option ParsedMessage :=
  if ¬ pyStartswith text pfx then none
  else parseSpecPayload (strip (text.drop pfx.length))

/-- `chat.ChatMessage` with its field defaults. -/
structure ChatMessage where
  text : Str
  chatName : Str := []
  sender : Option Str := none
  fromMe : Bool := false
deriving DecidableEq

/-- `ChatService._push_if_new` (`chat.py` lines 200-206).  The cache models
the service's `_last_seen` dict, which only ever holds the single key
`"last"`; `none` is a fresh cache.  Returns the updated cache and bucket. -/
def pushIfNew (cache : Option Str) (bucket : List ChatMessage) (text : Str)
    (fromMe : Bool) : Option Str × List ChatMessage :=
  if cache = some text then (cache, bucket)
  else (some text, bucket ++ [{ text := text, fromMe := fromMe }])

/-- A sequence of successful reads (text and from-me flag) pushed through
`pushIfNew` in program order, starting from a given cache state with an
empty bucket. -/
def processReads (cache : Option Str) (reads : List (Str × Bool)) :
    Option Str × List ChatMessage :=
  reads.foldl (fun st r => pushIfNew st.1 st.2 r.1 r.2) (cache, [])

/-- Reference characterisation of the deduplicator: a read is dropped
exactly when its text equals the most recently cached text, so each
maximal run of consecutive identical reads is forwarded once. -/
def collapseRuns (cache : Option Str) : List (Str × Bool) → List ChatMessage
  | [] => []
  | (t, b) :: rest =>
    if cache = some t then collapseRuns cache rest
    else { text := t, fromMe := b } :: collapseRuns (some t) rest

/-- Cache value after a sequence of reads: every successful read leaves
the cache holding that read's text, whether or not it was forwarded. -/
def lastCache (cache : Option Str) : List (Str × Bool) → Option Str
  | [] => cache
  | (t, _) :: rest => lastCache (some t) rest

/-- Outcome of processing one unread chat inside the scan cycle:
`.error` models any exception raised while activating the chat, waiting
for bubbles or reading it; `.ok none` models a read that produced no
text; `.ok (some (t, b))` a successful read. -/
abbrev ChatOutcome := Except Unit (Option (Str × Bool))

/-- Body of the per-chat loop of `ChatService.poll_new_messages`
(`chat.py` lines 44-82): an exception is caught at the chat boundary and
the chat is skipped; an unreadable chat is skipped; a successful read is
deduplicated and appended. -/
def processChat (st : Option Str × List ChatMessage) (c : ChatOutcome) :
    Option Str × List ChatMessage :=
  match c with
  | .error _ => st
  | .ok none => st
  | .ok (some (t, b)) => pushIfNew st.1 st.2 t b

/-- `ChatService._collect_active_chat_message` (`chat.py` lines 208-216):
one more read of the currently active chat, deduplicated and appended
like the per-chat reads; `none` models a read that produced nothing. -/
def collectActive (st : Option Str × List ChatMessage)
    (active : Option (Str × Bool)) : Option Str × List ChatMessage :=
  match active with
  | none => st
  | some (t, b) => pushIfNew st.1 st.2 t b

/-- `ChatService.poll_new_messages` (`chat.py` lines 34-86), mirroring the
source's early-return branch for an empty unread list.  The function is
total: a cycle always returns normally. -/
def pollNewMessages (cache : Option Str) (unread : List ChatOutcome)
    (active : Option (Str × Bool)) : Option Str × List ChatMessage :=
  if unread.isEmpty then collectActive (cache, []) active
  else collectActive (unread.foldl processChat (cache, [])) active

/-- Result of the n-th probe (1-indexed) for the authenticated-UI marker
(`SessionManager.is_logged_in`). -/
abbrev Probe := Nat → Bool

/-- The `while` loop of `SessionManager._wait_for_login` (`session.py`
lines 39-54).  `t` is the elapsed time (each probe is instantaneous and
each sleep costs one poll interval, so `t = polls * interval`), `count` the
poll counter.  `fuel` bounds the iterations; `waitForLogin` passes
`timeout`, which is exhausted only when `t` has already reached the
deadline (for any positive interval), so the `0` case coincides with the
source's timeout exit.  Success carries (poll count, elapsed time);
failure carries the same data that the raised message interpolates. -/
def waitLoop (marker : Probe) (interval timeout : Nat) :
    Nat → Nat → Nat → Except (Nat × Nat) (Nat × Nat)
  | 0, t, count => .error (count, t)
  | fuel + 1, t, count =>
    if t < timeout then
      if marker (count + 1) then .ok (count + 1, t)
      else waitLoop marker interval timeout fuel (t + interval) (count + 1)
    else .error (count, t)

/-- `SessionManager._wait_for_login`: run the poll loop from time 0. -/
def waitForLogin (marker : Probe) (interval timeout : Nat) :
    Except (Nat × Nat) (Nat × Nat) :=
  waitLoop marker interval timeout timeout 0 0

/-- Failure modes of `SessionManager.ensure_session`: the login-deadline
error raised by `_wait_for_login` (the spec's `LoginTimeoutError`,
carrying poll count and elapsed time), or the secondary error raised when
the post-wait re-probe of the marker fails. -/
inductive SessionFailure
  | loginTimeout (polls elapsed : Nat)
  | establishFailed
deriving DecidableEq

/-- `SessionManager.ensure_session` (`session.py` lines 20-29): waits for
login, then re-probes the marker once (the `is_logged_in` call on line
26, modelled as the next probe in sequence).  Bringing the page to the
foreground is an external surface effect with no bearing on the result. -/
def ensureSession (marker : Probe) (interval timeout : Nat) :
    Except SessionFailure (Nat × Nat) :=
  match waitForLogin marker interval timeout with
  | .error (polls, elapsed) => .error (.loginTimeout polls elapsed)
  | .ok (polls, elapsed) =>
    if marker (polls + 1) then .ok (polls, elapsed)
    else .error .establishFailed

/-- One message bubble as seen by `ChatService._last_message_text`: its
`class` attribute and, for each text selector in order, the first
matching element's raw inner text.  `.error` models a raised fault,
`.ok none` a selector or attribute with no match. -/
structure BubbleModel where
  className : Except Unit (Option Str)
  candidates : List (Except Unit (Option Str))

/-- The DOM surface consulted by `ChatService._last_message_text`:
whether a conversation container resolves (through either selector
chain), and the message bubbles it contains, in DOM index order. -/
structure ReadEnv where
  containerFound : Except Unit Bool
  bubbles : Except Unit (List BubbleModel)

/-- The text-selector loop of `_last_message_text` (`chat.py` lines
167-173): return the first candidate whose stripped text is longer than
one character; propagate any raised fault. -/
def scanCandidates : List (Except Unit (Option Str)) → Except Unit (Option Str)
  | [] => .ok none
  | c :: rest =>
    match c with
    | .error e => .error e
    | .ok none => scanCandidates rest
    | .ok (some raw) =>
      if 1 < (strip raw).length then .ok (some (strip raw))
      else scanCandidates rest

/-- Spec-side characterisation of the text-selector loop: the first
candidate whose trimmed text has length greater than one character. -/
def firstLongCandidate : List (Option Str) → Option Str
  | [] => none
  | none :: rest => firstLongCandidate rest
  | some raw :: rest =>
    if 1 < (strip raw).length then some (strip raw)
    else firstLongCandidate rest

/-- `ChatService._last_message_text` (`chat.py` lines 125-178) before its
catch-all: resolve the container, enumerate bubbles, take the bubble at
the highest index, read its class (before any text is read, as in the
source), then scan the text selectors. -/
def lastMessageTextE (env : ReadEnv) : Except Unit (Option (Str × Bool)) :=
  match env.containerFound with
  | .error e => .error e
  | .ok false => .ok none
  | .ok true =>
    match env.bubbles with
    | .error e => .error e
    | .ok bs =>
      match bs.getLast? with
      | none => .ok none
      | some b =>
        match b.className with
        | .error e => .error e
        | .ok cls =>
          match scanCandidates b.candidates with
          | .error e => .error e
          | .ok none => .ok none
          | .ok (some text) =>
            .ok (some (text, containsSub (cls.getD []) "message-out".toList))

/-- `ChatService._last_message_text` with its enclosing catch-all: any
raised fault degrades to `none`. -/
def lastMessageText (env : ReadEnv) : Option (Str × Bool) :=
  match lastMessageTextE env with
  | .ok r => r
  | .error _ => none

/-- The static dispatch table of `CommandHandler.__init__`
(`handlers.py` lines 14-16). -/
def commandsTable : List (Str × Str) := [("ping".toList, "pong".toList)]

/-- Dict lookup on the dispatch table (`command.name in self._commands`
followed by indexing). -/
def tableGet : List (Str × Str) → Str → Option Str
  | [], _ => none
  | (k, v) :: rest, n => if n = k then some v else tableGet rest n

/-- Python string `<` (lexicographic by code point), as used by
`sorted`. -/
def strLt : Str → Str → Bool
  | [], [] => false
  | [], _ :: _ => true
  | _ :: _, [] => false
  | a :: as, b :: bs => if a < b then true else if b < a then false else strLt as bs

/-- Insertion step of the sort used to model Python `sorted`. -/
def insertSorted (x : Str) : List Str → List Str
  | [] => [x]
  | y :: ys => if strLt x y then x :: y :: ys else y :: insertSorted x ys

/-- Python `sorted` on a list of strings (insertion sort, stable). -/
def sortStrs : List Str → List Str
  | [] => []
  | x :: xs => insertSorted x (sortStrs xs)

/-- `sorted({*self._commands.keys(), "help"})` from
`CommandHandler._help_message` (`handlers.py` line 28). -/
def helpNames : List Str :=
  sortStrs (List.dedup ("help".toList :: commandsTable.map Prod.fst))

/-- Python `"\n".join`. -/
def joinLines : List Str → Str
  | [] => []
  | [x] => x
  | x :: y :: rest => x ++ '\n' :: joinLines (y :: rest)

/-- `CommandHandler._help_message` (`handlers.py` lines 27-30). -/
def helpMessage (pfx : Str) : Str :=
  "Available commands:\n".toList
    ++ joinLines (helpNames.map (fun n => "- ".toList ++ pfx ++ (' ' :: n)))

/-- `CommandHandler.handle` (`handlers.py` lines 18-25). -/
def handle (pfx : Str) (cmd : ParsedCommand) : Str :=
  if cmd.name = "help".toList then helpMessage pfx
  else
    match tableGet commandsTable cmd.name with
    | some v => v
    | none =>
      "Unknown command '".toList ++ cmd.name ++ "'. Try '".toList ++ pfx
        ++ " help'.".toList

/-- The rate-limit apology returned by `call_ai` when the backend failure
text contains `"429"` (`main.py` line 89). -/
def rateLimitReply : Str :=
  "Lo siento, he alcanzado mi límite de mensajes por ahora. Por favor, inténtalo de nuevo en unos segundos.".toList

/-- `call_ai` from `main.py` (lines 75-91).  `hasClient` models whether
the AI credential was configured; `backend` models the completion call:
a failure with its message text, or a response whose `text` field may be
absent (Python's `or` also replaces an empty response with the fallback
string).  The function is total: no exception propagates to the loop. -/
def callAI (hasClient : Bool) (backend : Except Str (Option Str)) : Str :=
  if !hasClient then "Error: AI client not configured (missing API key).".toList
  else
    match backend with
    | .ok t =>
      match t with
      | some s => if s = [] then "No response from AI.".toList else s
      | none => "No response from AI.".toList
    | .error e =>
      if containsSub e "429".toList then rateLimitReply
      else "Sorry, I encountered an error processing that: ".toList ++ e

end WABot

namespace WABot

theorem parsePayload_eq_spec (p : Str) : parsePayload p = parseSpecPayload p := by
  unfold parsePayload parseSpecPayload
  by_cases hne : p = []
  · simp [hne]
  · simp only [List.isEmpty_iff, hne, if_false]
    rcases hs : pySplit p with _ | ⟨tok, rest⟩
    · rfl
    · rcases tok with _ | ⟨c, cs⟩
      · simp [List.head?]
      · by_cases hc : c = '-'
        · subst hc
          simp [List.head?]
        · simp only [List.head?, Option.some.injEq, hc, if_false]
          split
          · rename_i tname heq
            rw [List.cons.injEq] at heq
            exact absurd heq.1 hc
          · rfl

theorem parse_eq_parseSpec (pfx text : Str) : parse pfx text = parseSpec pfx text := by
  unfold parse parseSpec
  by_cases h : pyStartswith text pfx = true
  · rw [if_pos h, if_neg (by simp [h])]
    exact parsePayload_eq_spec _
  · rw [if_neg h, if_pos (by simp [h])]

theorem pyStartswith_append (pfx s : Str) : pyStartswith (pfx ++ s) pfx = true := by
  induction pfx with
  | nil => cases s <;> rfl
  | cons c cs ih => simp [pyStartswith, ih]

theorem dropWhile_nospace (l : Str) (h : ∀ c ∈ l, pyIsSpace c = false) :
    l.dropWhile pyIsSpace = l := by
  cases l with
  | nil => rfl
  | cons c cs => simp [List.dropWhile_cons, h c (by simp)]

theorem strip_eq_self (s : Str) (h : ∀ c ∈ s, pyIsSpace c = false) : strip s = s := by
  unfold strip rstrip lstrip
  rw [dropWhile_nospace s h,
    dropWhile_nospace s.reverse (fun c hc => h c (List.mem_reverse.mp hc)),
    List.reverse_reverse]

theorem pySplitGo_nospace (s : Str) (h : ∀ c ∈ s, pyIsSpace c = false) :
    ∀ acc : Str, pySplitGo s acc
      = if acc = [] ∧ s = [] then [] else [acc.reverse ++ s] := by
  induction s with
  | nil =>
    intro acc
    unfold pySplitGo
    by_cases ha : acc = [] <;> simp [ha]
  | cons c cs ih =>
    intro acc
    unfold pySplitGo
    rw [h c (by simp)]
    simp only [Bool.false_eq_true, if_false]
    rw [ih (fun d hd => h d (by simp [hd])) (c :: acc)]
    simp [List.append_assoc]

theorem pySplit_nospace (s : Str) (hne : s ≠ []) (h : ∀ c ∈ s, pyIsSpace c = false) :
    pySplit s = [s] := by
  unfold pySplit
  rw [pySplitGo_nospace s h []]
  simp [hne]

/-- C1: for every configured non-empty prefix `parse` coincides with the
spec's reference definition `parseSpec`, and the spec's two worked
examples hold: `"/bot -cmd a b"` parses to the command `"cmd"` with args
`["a", "b"]`, and `"/bot hola"` parses to the query `"hola"`. -/
theorem claim_C1_parse_follows_spec :
    (∀ pfx text : Str, pfx ≠ [] → parse pfx text = parseSpec pfx text)
    ∧ parse "/bot".toList "/bot -cmd a b".toList
        = some (.command ⟨"cmd".toList, ["a".toList, "b".toList]⟩)
    ∧ parse "/bot".toList "/bot hola".toList = some (.query "hola".toList) :=
  ⟨fun pfx text _ => parse_eq_parseSpec pfx text, by decide, by decide⟩

theorem claim_C1_witness :
    parse "/x".toList "/x hi".toList = parseSpec "/x".toList "/x hi".toList :=
  claim_C1_parse_follows_spec.1 "/x".toList "/x hi".toList (by decide)

/-- C10: the prefix test of `parse` is a plain string-prefix test with no
word-boundary requirement: appending any non-empty run of non-whitespace
characters directly to the prefix is accepted, the appended characters
becoming the whole payload; in particular `"/bothola"` with prefix
`"/bot"` parses to the query `"hola"`. -/
theorem claim_C10_no_word_boundary :
    (∀ pfx s : Str, s ≠ [] → (∀ c ∈ s, pyIsSpace c = false) →
      parse pfx (pfx ++ s) = parsePayload s ∧ parse pfx (pfx ++ s) ≠ none)
    ∧ parse "/bot".toList "/bothola".toList = some (.query "hola".toList) := by
  refine ⟨fun pfx s hne hns => ?_, by decide⟩
  have hpay : parse pfx (pfx ++ s) = parsePayload s := by
    unfold parse
    rw [if_pos (pyStartswith_append pfx s), List.drop_left, strip_eq_self s hns]
  refine ⟨hpay, ?_⟩
  rw [hpay]
  unfold parsePayload
  rw [if_neg hne, pySplit_nospace s hne hns]
  split
  · rename_i heq
    exact absurd heq (by simp)
  · split <;> simp

theorem claim_C10_witness :
    parse "/bot".toList ("/bot".toList ++ "hola".toList) ≠ none :=
  (claim_C10_no_word_boundary.1 "/bot".toList "hola".toList (by decide) (by decide)).2

theorem toNat_ofNat_valid (n : Nat) (h : n.isValidChar) : (Char.ofNat n).toNat = n := by
  unfold Char.ofNat
  rw [dif_pos h]
  rfl

theorem pyLowerChar_not_upper (c : Char) :
    ¬ (65 ≤ (pyLowerChar c).toNat ∧ (pyLowerChar c).toNat ≤ 90) := by
  unfold pyLowerChar
  by_cases h : 65 ≤ c.toNat ∧ c.toNat ≤ 90
  · rw [if_pos h, toNat_ofNat_valid _ (Or.inl (by omega))]
    omega
  · rw [if_neg h]
    exact h

theorem parse_command_inv (pfx text : Str) (cmd : ParsedCommand)
    (h : parse pfx text = some (.command cmd)) :
    ∃ tok rest, pySplit (strip (text.drop pfx.length)) = tok :: rest
      ∧ tok.head? = some '-' ∧ cmd.name = pyLower (tok.drop 1) ∧ cmd.args = rest := by
  unfold parse at h
  by_cases hsw : pyStartswith text pfx = true
  · rw [if_pos hsw] at h
    unfold parsePayload at h
    by_cases hne : strip (text.drop pfx.length) = []
    · rw [if_pos hne] at h
      exact absurd h (by simp)
    · rw [if_neg hne] at h
      rcases hs : pySplit (strip (text.drop pfx.length)) with _ | ⟨tok, rest⟩
      · rw [hs] at h
        exact absurd h (by simp)
      · rw [hs] at h
        have h' : (if tok.head? = some '-' then
              some (ParsedMessage.command ⟨pyLower (tok.drop 1), rest⟩)
            else some (ParsedMessage.query (strip (text.drop pfx.length))))
              = some (ParsedMessage.command cmd) := h
        by_cases hd : tok.head? = some '-'
        · rw [if_pos hd] at h'
          simp only [Option.some.injEq, ParsedMessage.command.injEq] at h'
          exact ⟨tok, rest, rfl, hd, by rw [← h'], by rw [← h']⟩
        · rw [if_neg hd] at h'
          exact absurd h' (by simp)
  · rw [if_neg hsw] at h
    exact absurd h (by simp)

/-- C8 counterexample: the input `"/bot -"` (prefix `"/bot"`) is accepted
as a command variant whose name is the empty string, refuting the
invariant that every parsed command name is non-empty. -/
theorem claim_C8_counterexample :
    parse "/bot".toList "/bot -".toList = some (.command ⟨[], []⟩) := by decide

/-- C8 (amended): every command variant produced by `parse` has a name
free of ASCII uppercase letters (the lower-casing); the name is empty
only when the first payload token is exactly the single character `-`
(as happens for the payload `"-"`), and is non-empty for every other
first token. -/
theorem claim_C8_amended (pfx text : Str) (cmd : ParsedCommand)
    (h : parse pfx text = some (.command cmd)) :
    (∀ c ∈ cmd.name, ¬ (65 ≤ c.toNat ∧ c.toNat ≤ 90))
    ∧ (cmd.name = [] →
        (pySplit (strip (text.drop pfx.length))).head? = some ['-']) := by
  obtain ⟨tok, rest, hs, hd, hname, _⟩ := parse_command_inv pfx text cmd h
  constructor
  · intro c hc
    rw [hname] at hc
    obtain ⟨d, _, rfl⟩ := List.mem_map.mp hc
    exact pyLowerChar_not_upper d
  · intro hnil
    rw [hname] at hnil
    unfold pyLower at hnil
    rw [List.map_eq_nil_iff] at hnil
    rcases tok with _ | ⟨c, cs⟩
    · exact absurd hd (by simp)
    · simp only [List.head?, Option.some.injEq] at hd
      simp only [List.drop_one, List.tail_cons] at hnil
      rw [hs, hd, hnil]
      rfl

theorem claim_C8_amended_witness :
    (∀ c ∈ ("ping".toList : Str), ¬ (65 ≤ c.toNat ∧ c.toNat ≤ 90))
    ∧ (("ping".toList : Str) = [] →
        (pySplit (strip (("/bot -PING x".toList : Str).drop
          ("/bot".toList : Str).length))).head? = some ['-']) :=
  claim_C8_amended "/bot".toList "/bot -PING x".toList
    ⟨"ping".toList, ["x".toList]⟩ (by decide)

theorem foldl_pushIfNew (reads : List (Str × Bool)) :
    ∀ (cache : Option Str) (acc : List ChatMessage),
      reads.foldl (fun st r => pushIfNew st.1 st.2 r.1 r.2) (cache, acc)
        = (lastCache cache reads, acc ++ collapseRuns cache reads) := by
  induction reads with
  | nil => intro cache acc; simp [lastCache, collapseRuns]
  | cons r rest ih =>
    intro cache acc
    obtain ⟨t, b⟩ := r
    rw [List.foldl_cons]
    show rest.foldl _ (pushIfNew cache acc t b) = _
    by_cases hc : cache = some t
    · have hstep : pushIfNew cache acc t b = (cache, acc) := by
        unfold pushIfNew
        rw [if_pos hc]
      rw [hstep, ih]
      simp only [lastCache, collapseRuns]
      rw [if_pos hc, hc]
    · have hstep : pushIfNew cache acc t b
          = (some t, acc ++ [{ text := t, fromMe := b }]) := by
        unfold pushIfNew
        rw [if_neg hc]
      rw [hstep, ih]
      simp only [lastCache, collapseRuns]
      rw [if_neg hc, List.append_assoc]
      rfl

theorem processReads_eq (cache : Option Str) (reads : List (Str × Bool)) :
    processReads cache reads = (lastCache cache reads, collapseRuns cache reads) := by
  unfold processReads
  rw [foldl_pushIfNew reads cache []]
  rw [List.nil_append]

theorem collapseRuns_chain (reads : List (Str × Bool)) :
    ∀ cache : Option Str,
      List.Chain' (fun m1 m2 => m1.text ≠ m2.text) (collapseRuns cache reads)
      ∧ (∀ m ∈ (collapseRuns cache reads).head?, some m.text ≠ cache) := by
  induction reads with
  | nil => intro cache; simp [collapseRuns]
  | cons r rest ih =>
    intro cache
    obtain ⟨t, b⟩ := r
    unfold collapseRuns
    by_cases hc : cache = some t
    · rw [if_pos hc]
      refine ⟨(ih cache).1, ?_⟩
      intro m hm
      have := (ih cache).2 m hm
      exact this
    · rw [if_neg hc]
      refine ⟨?_, ?_⟩
      · rw [List.chain'_cons']
        refine ⟨?_, (ih (some t)).1⟩
        intro m hm
        have hne := (ih (some t)).2 m hm
        intro heq
        exact hne (congrArg some heq.symm)
      · intro m hm
        simp only [List.head?, Option.mem_def, Option.some.injEq] at hm
        rw [← hm]
        exact fun heq => hc heq.symm

/-- C3 counterexample: with a fresh cache, the successful-read sequence
a, b, a forwards an InboundMessage with text `"a"` twice — the
single-value cache does not prevent re-forwarding once a different text
has intervened, refuting "only ever forwarded once". -/
theorem claim_C3_counterexample :
    ¬ ((processReads none
        [("a".toList, false), ("b".toList, false), ("a".toList, false)]).2.map
          ChatMessage.text).count "a".toList ≤ 1 := by decide

/-- C3 (amended): across any sequence of successful reads from any cache
state, a read is forwarded exactly when its text differs from the single
most recently cached text, so each maximal run of consecutive identical
reads is forwarded once (`collapseRuns`) and no two adjacent forwarded
messages carry the same text; re-reading a text after a different text
intervened forwards it again. -/
theorem claim_C3_amended (cache : Option Str) (reads : List (Str × Bool)) :
    (processReads cache reads).2 = collapseRuns cache reads
    ∧ List.Chain' (fun m1 m2 => m1.text ≠ m2.text) (processReads cache reads).2 := by
  rw [processReads_eq]
  exact ⟨rfl, (collapseRuns_chain reads cache).1⟩

/-- C7 counterexample: the claim quantifies over every starting cache
state, but when the cache already holds the text `"a"`, feeding two
successive reads of `"a"` emits zero messages, not exactly one. -/
theorem claim_C7_counterexample :
    ¬ (processReads (some "a".toList)
        [("a".toList, false), ("a".toList, false)]).2.length = 1 := by decide

/-- C7 (amended): from any cache state that does not already hold the
first read's text, two successive reads with identical text emit exactly
one message (the second is suppressed), and a third read with a
different text emits a second message and leaves that text in the
cache. -/
theorem claim_C7_amended (cache : Option Str) (t u : Str) (b1 b2 b3 : Bool)
    (h1 : cache ≠ some t) (h2 : u ≠ t) :
    (processReads cache [(t, b1), (t, b2), (u, b3)]).2
        = [{ text := t, fromMe := b1 }, { text := u, fromMe := b3 }]
    ∧ (processReads cache [(t, b1), (t, b2), (u, b3)]).1 = some u := by
  have h3 : t ≠ u := fun e => h2 e.symm
  unfold processReads
  simp [pushIfNew, h1, h3]

theorem claim_C7_witness :
    (processReads none
        [("a".toList, true), ("a".toList, false), ("b".toList, true)]).2
      = [{ text := "a".toList, fromMe := true }, { text := "b".toList, fromMe := true }]
    ∧ (processReads none
        [("a".toList, true), ("a".toList, false), ("b".toList, true)]).1
      = some "b".toList :=
  claim_C7_amended none "a".toList "b".toList true false true
    (by decide) (by decide)

/-- C4: in a scan cycle, a chat whose processing raises is skipped with
no effect on the rest of the cycle (the result is as if that chat were
absent, so the remaining chats are still processed and the cycle returns
normally — the model is a total function); every cycle, including one
with an empty unread list, ends with exactly one additional active-chat
read, deduplicated and appended by the same `pushIfNew` step as the
per-chat reads. -/
theorem claim_C4_fault_containment :
    (∀ (cache : Option Str) (pre post : List ChatOutcome)
        (active : Option (Str × Bool)),
      pollNewMessages cache (pre ++ Except.error () :: post) active
        = pollNewMessages cache (pre ++ post) active)
    ∧ (∀ cache unread active,
      pollNewMessages cache unread active
        = collectActive (unread.foldl processChat (cache, [])) active)
    ∧ (∀ st t b, collectActive st (some (t, b)) = processChat st (.ok (some (t, b)))) := by
  have huniform : ∀ (cache : Option Str) (unread : List ChatOutcome) active,
      pollNewMessages cache unread active
        = collectActive (unread.foldl processChat (cache, [])) active := by
    intro cache unread active
    unfold pollNewMessages
    cases unread with
    | nil => rfl
    | cons c cs => rfl
  refine ⟨?_, huniform, fun st t b => rfl⟩
  intro cache pre post active
  rw [huniform, huniform, List.foldl_append, List.foldl_append, List.foldl_cons]
  rfl

/-- C2: `handle` is a total function (the unknown-command path never
throws) meeting the dispatcher's postcondition: the name `"help"` yields
the header line `"Available commands:"` followed by one line per known
command name — the lexicographically sorted, deduplicated set of
registered table keys plus `"help"`, each exactly once — formatted
`"- <prefix> <name>"`; a registered key yields its canned value (so
`"ping"` yields `"pong"`); any other name yields exactly the
unknown-command message. -/
theorem claim_C2_handle_postcondition :
    (∀ (pfx : Str) (cmd : ParsedCommand), cmd.name = "help".toList →
      handle pfx cmd
        = joinLines ("Available commands:".toList
            :: helpNames.map (fun n => "- ".toList ++ pfx ++ (' ' :: n))))
    ∧ helpNames = ["help".toList, "ping".toList]
    ∧ helpNames.Nodup
    ∧ List.Chain' (fun a b => strLt a b = true) helpNames
    ∧ (∀ n, n ∈ helpNames ↔ (n = "help".toList ∨ n ∈ commandsTable.map Prod.fst))
    ∧ (∀ (pfx : Str) (cmd : ParsedCommand), cmd.name = "ping".toList →
        handle pfx cmd = "pong".toList)
    ∧ (∀ (pfx : Str) (cmd : ParsedCommand), cmd.name ≠ "help".toList →
        tableGet commandsTable cmd.name = none →
        handle pfx cmd
          = "Unknown command '".toList ++ cmd.name ++ "'. Try '".toList ++ pfx
              ++ " help'.".toList)
    ∧ handle "/bot".toList ⟨"xyz".toList, []⟩
        = "Unknown command 'xyz'. Try '/bot help'.".toList := by
  refine ⟨?_, by decide, by decide, ?_, ?_, ?_, ?_, by decide⟩
  · intro pfx cmd h
    unfold handle
    rw [if_pos h]
    rfl
  · rw [show helpNames = ["help".toList, "ping".toList] from rfl]
    exact List.chain'_cons.mpr ⟨by decide, List.chain'_singleton _⟩
  · intro n
    rw [show helpNames = ["help".toList, "ping".toList] from rfl]
    simp [commandsTable]
  · intro pfx cmd h
    unfold handle
    rw [h]
    rfl
  · intro pfx cmd hne htg
    unfold handle
    rw [if_neg hne, htg]

theorem claim_C2_witness :
    handle "/p".toList ⟨"zzz".toList, []⟩
      = "Unknown command '".toList ++ "zzz".toList ++ "'. Try '".toList
          ++ "/p".toList ++ " help'.".toList :=
  claim_C2_handle_postcondition.2.2.2.2.2.2.1 "/p".toList
    ⟨"zzz".toList, []⟩ (by decide) (by decide)

/-- C9: the AI-query path is a total function of the backend outcome (no
exception reaches the poll loop, a reply string always results): with no
credential it returns the fixed configuration-error string whatever the
backend would do; a backend failure whose text contains `"429"` maps to
the rate-limit apology; any other backend failure maps to the generic
error reply. -/
theorem claim_C9_ai_failures :
    (∀ backend, callAI false backend
        = "Error: AI client not configured (missing API key).".toList)
    ∧ (∀ e, containsSub e "429".toList = true →
        callAI true (.error e) = rateLimitReply)
    ∧ (∀ e, containsSub e "429".toList = false →
        callAI true (.error e)
          = "Sorry, I encountered an error processing that: ".toList ++ e) := by
  have hshape : ∀ e : Str, callAI true (.error e)
      = if containsSub e "429".toList then rateLimitReply
        else "Sorry, I encountered an error processing that: ".toList ++ e :=
    fun e => rfl
  refine ⟨fun backend => rfl, fun e h => ?_, fun e h => ?_⟩
  · rw [hshape, if_pos h]
  · rw [hshape, h]
    rfl

theorem claim_C9_witness :
    callAI true (.error "Error 429 quota".toList) = rateLimitReply
    ∧ callAI true (.error "boom".toList)
        = "Sorry, I encountered an error processing that: ".toList
            ++ "boom".toList :=
  ⟨claim_C9_ai_failures.2.1 "Error 429 quota".toList (by decide),
   claim_C9_ai_failures.2.2 "boom".toList (by decide)⟩

theorem waitLoop_ok_inv (marker : Probe) (interval timeout : Nat) :
    ∀ fuel t count p e,
      waitLoop marker interval timeout fuel t count = .ok (p, e) →
      e < timeout ∧ marker p = true := by
  intro fuel
  induction fuel with
  | zero =>
    intro t count p e h
    exact absurd h (by simp [waitLoop])
  | succ n ih =>
    intro t count p e h
    unfold waitLoop at h
    by_cases ht : t < timeout
    · rw [if_pos ht] at h
      by_cases hm : marker (count + 1) = true
      · rw [if_pos hm] at h
        simp only [Except.ok.injEq, Prod.mk.injEq] at h
        obtain ⟨hp, he⟩ := h
        subst hp
        subst he
        exact ⟨ht, hm⟩
      · rw [if_neg hm] at h
        exact ih _ _ _ _ h
    · rw [if_neg ht] at h
      exact absurd h (by simp)

theorem waitLoop_timeout (marker : Probe) (interval timeout : Nat)
    (hfail : ∀ n, marker n = false) :
    ∀ fuel t count, timeout ≤ t + fuel * interval → t < timeout + interval →
      ∃ k, waitLoop marker interval timeout fuel t count
          = .error (count + k, t + k * interval)
        ∧ timeout ≤ t + k * interval ∧ t + k * interval < timeout + interval := by
  intro fuel
  induction fuel with
  | zero =>
    intro t count hsuf hinv
    refine ⟨0, by simp [waitLoop], by simpa using hsuf, by simpa using hinv⟩
  | succ n ih =>
    intro t count hsuf hinv
    by_cases ht : t < timeout
    · have hstep : waitLoop marker interval timeout (n + 1) t count
          = waitLoop marker interval timeout n (t + interval) (count + 1) := by
        show (if t < timeout then
            if marker (count + 1) = true then Except.ok (count + 1, t)
            else waitLoop marker interval timeout n (t + interval) (count + 1)
          else Except.error (count, t))
          = waitLoop marker interval timeout n (t + interval) (count + 1)
        rw [if_pos ht, hfail (count + 1)]
        rfl
      have hsuf' : timeout ≤ (t + interval) + n * interval := by
        have h1 : t + (n + 1) * interval = (t + interval) + n * interval := by ring
        rw [h1] at hsuf
        exact hsuf
      have hinv' : t + interval < timeout + interval := Nat.add_lt_add_right ht interval
      obtain ⟨k, hk, hk1, hk2⟩ := ih (t + interval) (count + 1) hsuf' hinv'
      refine ⟨k + 1, ?_, ?_, ?_⟩
      · rw [hstep, hk,
          show count + (k + 1) = count + 1 + k from by ring,
          show t + (k + 1) * interval = t + interval + k * interval from by ring]
      · rw [show t + (k + 1) * interval = t + interval + k * interval from by ring]
        exact hk1
      · rw [show t + (k + 1) * interval = t + interval + k * interval from by ring]
        exact hk2
    · refine ⟨0, ?_, by simpa using Nat.le_of_not_lt ht, by simpa using hinv⟩
      unfold waitLoop
      rw [if_neg ht]
      simp

theorem ensureSession_ok_inv (marker : Probe) (interval timeout p e : Nat)
    (h : ensureSession marker interval timeout = .ok (p, e)) :
    e < timeout ∧ marker p = true := by
  unfold ensureSession at h
  rcases hw : waitForLogin marker interval timeout with ⟨polls, elapsed⟩ | ⟨polls, elapsed⟩
  · rw [hw] at h
    exact absurd h (by simp)
  · rw [hw] at h
    have h' : (if marker (polls + 1) = true then Except.ok (polls, elapsed)
        else Except.error SessionFailure.establishFailed)
        = (Except.ok (p, e) : Except SessionFailure (Nat × Nat)) := h
    by_cases hm : marker (polls + 1) = true
    · rw [if_pos hm] at h'
      simp only [Except.ok.injEq, Prod.mk.injEq] at h'
      obtain ⟨hp, he⟩ := h'
      subst hp
      subst he
      exact waitLoop_ok_inv marker interval timeout timeout 0 0 _ _ hw
    · rw [if_neg hm] at h'
      exact absurd h' (by simp)

/-- C5: for any positive poll interval, `ensureSession` (a) succeeds only
with the marker observed and an elapsed time strictly below the deadline
(the deadline is never exhausted on success); (b) succeeds after one poll
with zero elapsed time when the marker is present on the first probe (and
on the immediate post-wait re-probe); (c) when the marker is never
observed it fails with the login-timeout error carrying the poll count
and elapsed time, the elapsed time being `polls * interval` and lying
within one poll interval of the configured deadline. -/
theorem claim_C5_ensure_session (marker : Probe) (interval timeout : Nat)
    (hI : 0 < interval) :
    (∀ p e, ensureSession marker interval timeout = .ok (p, e) →
        e < timeout ∧ marker p = true)
    ∧ (0 < timeout → marker 1 = true → marker 2 = true →
        ensureSession marker interval timeout = .ok (1, 0))
    ∧ ((∀ n, marker n = false) →
        ∃ p e, ensureSession marker interval timeout
            = .error (.loginTimeout p e)
          ∧ e = p * interval ∧ timeout ≤ e ∧ e < timeout + interval) := by
  refine ⟨fun p e h => ensureSession_ok_inv marker interval timeout p e h, ?_, ?_⟩
  · intro htpos h1 h2
    obtain ⟨m, hm⟩ : ∃ m, timeout = m + 1 := ⟨timeout - 1, by omega⟩
    unfold ensureSession waitForLogin
    rw [hm]
    have hloop : waitLoop marker interval (m + 1) (m + 1) 0 0 = .ok (1, 0) := by
      unfold waitLoop
      rw [if_pos (by omega), h1]
      rfl
    rw [hloop]
    show (if marker (1 + 1) = true then Except.ok (1, 0)
        else Except.error SessionFailure.establishFailed) = Except.ok (1, 0)
    rw [show marker (1 + 1) = true from h2]
    rfl
  · intro hfail
    obtain ⟨k, hk, hk1, hk2⟩ := waitLoop_timeout marker interval timeout hfail
      timeout 0 0 (by simpa using Nat.le_mul_of_pos_right timeout hI) (by omega)
    refine ⟨k, k * interval, ?_, rfl, by simpa using hk1, by simpa using hk2⟩
    unfold ensureSession waitForLogin
    rw [hk]
    simp

theorem claim_C5_witness :
    ensureSession (fun _ => true) 2 120 = .ok (1, 0)
    ∧ ∃ p e, ensureSession (fun _ => false) 2 5
        = .error (.loginTimeout p e)
      ∧ e = p * 2 ∧ 5 ≤ e ∧ e < 5 + 2 :=
  ⟨(claim_C5_ensure_session (fun _ => true) 2 120 (by decide)).2.1
      (by decide) rfl rfl,
   (claim_C5_ensure_session (fun _ => false) 2 5 (by decide)).2.2
      (fun _ => rfl)⟩

theorem scanCandidates_ok (cands : List (Option Str)) :
    scanCandidates (cands.map .ok) = .ok (firstLongCandidate cands) := by
  induction cands with
  | nil => rfl
  | cons c rest ih =>
    cases c with
    | none => exact ih
    | some raw =>
      show (if 1 < (strip raw).length then Except.ok (some (strip raw))
          else scanCandidates (rest.map .ok))
        = .ok (if 1 < (strip raw).length then some (strip raw)
          else firstLongCandidate rest)
      by_cases hl : 1 < (strip raw).length
      · rw [if_pos hl, if_pos hl]
      · rw [if_neg hl, if_neg hl]
        exact ih

theorem scanCandidates_fault (pre : List (Option Str))
    (post : List (Except Unit (Option Str)))
    (h : firstLongCandidate pre = none) :
    scanCandidates (pre.map .ok ++ Except.error () :: post) = .error () := by
  induction pre with
  | nil => rfl
  | cons c rest ih =>
    cases c with
    | none => exact ih h
    | some raw =>
      by_cases hl : 1 < (strip raw).length
      · have hfc : firstLongCandidate (some raw :: rest) = some (strip raw) := by
          show (if 1 < (strip raw).length then some (strip raw)
              else firstLongCandidate rest) = some (strip raw)
          rw [if_pos hl]
        rw [hfc] at h
        exact absurd h (by simp)
      · have hstep : scanCandidates ((some raw :: rest).map .ok
            ++ Except.error () :: post)
            = scanCandidates (rest.map .ok ++ Except.error () :: post) := by
          show (if 1 < (strip raw).length then Except.ok (some (strip raw))
              else scanCandidates (rest.map .ok ++ Except.error () :: post))
            = scanCandidates (rest.map .ok ++ Except.error () :: post)
          rw [if_neg hl]
        have hh : firstLongCandidate rest = none := by
          have heq : firstLongCandidate (some raw :: rest)
              = firstLongCandidate rest := by
            show (if 1 < (strip raw).length then some (strip raw)
                else firstLongCandidate rest) = firstLongCandidate rest
            rw [if_neg hl]
          rw [← heq]
          exact h
        rw [hstep]
        exact ih hh

/-- C6: `lastMessageText` returns `none` when the resolved container holds
zero bubbles; when bubbles exist it reads the bubble at the highest index,
returning the first text-selector candidate whose trimmed text is longer
than one character, with `fromMe` derived from whether that bubble's class
contains the outbound marker; and every internal fault — while resolving
the container, enumerating bubbles, reading the class attribute, or
reading a text candidate before any qualifying one — degrades to `none`
instead of propagating. -/
theorem claim_C6_last_message (env : ReadEnv) :
    (env.containerFound = .ok true → env.bubbles = .ok [] →
        lastMessageText env = none)
    ∧ (∀ l b cls cands, env.containerFound = .ok true →
        env.bubbles = .ok (l ++ [b]) → b.className = .ok cls →
        b.candidates = cands.map .ok →
        lastMessageText env = (firstLongCandidate cands).map
          (fun t => (t, containsSub (cls.getD []) "message-out".toList)))
    ∧ (env.containerFound = .error () → lastMessageText env = none)
    ∧ (env.containerFound = .ok true → env.bubbles = .error () →
        lastMessageText env = none)
    ∧ (∀ l b, env.containerFound = .ok true → env.bubbles = .ok (l ++ [b]) →
        b.className = .error () → lastMessageText env = none)
    ∧ (∀ l b cls pre post, env.containerFound = .ok true →
        env.bubbles = .ok (l ++ [b]) → b.className = .ok cls →
        b.candidates = pre.map .ok ++ Except.error () :: post →
        firstLongCandidate pre = none → lastMessageText env = none) := by
  obtain ⟨cf, bub⟩ := env
  refine ⟨?_, ?_, ?_, ?_, ?_, ?_⟩
  · intro hc hb
    cases hc
    cases hb
    rfl
  · intro l b cls cands hc hb hcls hcand
    cases hc
    cases hb
    obtain ⟨bcn, bcand⟩ := b
    cases hcls
    cases hcand
    simp only [lastMessageText, lastMessageTextE, List.getLast?_concat,
      scanCandidates_ok]
    cases hfc : firstLongCandidate cands <;> simp
  · intro hc
    cases hc
    rfl
  · intro hc hb
    cases hc
    cases hb
    rfl
  · intro l b hc hb hcls
    cases hc
    cases hb
    obtain ⟨bcn, bcand⟩ := b
    cases hcls
    simp [lastMessageText, lastMessageTextE, List.getLast?_concat]
  · intro l b cls pre post hc hb hcls hcand hfc
    cases hc
    cases hb
    obtain ⟨bcn, bcand⟩ := b
    cases hcls
    cases hcand
    simp [lastMessageText, lastMessageTextE, List.getLast?_concat,
      scanCandidates_fault pre post hfc]

theorem claim_C6_witness :
    lastMessageText ⟨Except.error (), Except.ok []⟩ = none :=
  (claim_C6_last_message ⟨Except.error (), Except.ok []⟩).2.2.1 rfl

end WABot
